import Mathlib

/-!
Verification development for the map-building core of the Wing console UI
(`use-map.ts`): tree classification, visibility propagation, connection
bridging, inflight aggregation and edge port assignment.

The TypeScript source is embedded shallowly: construct tree nodes become an
inductive rose tree, JavaScript `Map`s become association lists built in the
same traversal order (with uniqueness-of-path hypotheses where a lookup value
matters), `string | undefined` becomes `Option String`, and JavaScript string
truthiness is modelled explicitly (the empty string is falsy).

The body of `bridgeConnections` lives in a module that is not part of the
visible sources, so it is modelled from the specification (section 4.2);
every definition carrying that caveat says so in its doc comment.
-/

namespace WingMap

/-- A construct tree node: path, optional resource kind (`constructInfo.fqn`),
optional declared hidden flag (`display.hidden`) and named children (the
association-list order models JavaScript object insertion order, which is what
`Object.values` iterates in). -/
inductive CTNode : Type where
  | node : String → Option String → Option Bool → List (String × CTNode) → CTNode

def CTNode.path : CTNode → String
  | .node p _ _ _ => p

def CTNode.fqn : CTNode → Option String
  | .node _ f _ _ => f

def CTNode.hiddenFlag : CTNode → Option Bool
  | .node _ _ h _ => h

def CTNode.childPairs : CTNode → List (String × CTNode)
  | .node _ _ _ cs => cs

/-- The children of a node, in object-value order. -/
def CTNode.childNodes (n : CTNode) : List CTNode :=
  n.childPairs.map Prod.snd

/-- The declared hidden flag with JavaScript truthiness applied
(absent counts as not hidden). -/
def CTNode.declaredHidden (n : CTNode) : Bool :=
  n.hiddenFlag.getD false

/-- Raw connection records as delivered by the query layer. -/
structure RawConnectionData where
  source : String
  target : String
  sourceOp : Option String
  targetOp : Option String
  name : String
deriving DecidableEq

/-- One endpoint of a (pre- or post-bridging) connection. -/
structure ConnectionEnd where
  id : String
  nodeFqn : Option String
  operation : Option String
deriving DecidableEq

/-- A connection as passed through the bridging pipeline. -/
structure MapConnection where
  source : ConnectionEnd
  target : ConnectionEnd
deriving DecidableEq

/-- An inflight record shown on a construct node. -/
structure NodeInflight where
  id : String
  name : String
  sourceOccupied : Bool
  targetOccupied : Bool
deriving DecidableEq

/-- The semantic role tags of `NodeV2` (the discriminant of the union). -/
inductive NodeTypeTag : Type where
  | container
  | autoId
  | function
  | scheduler
  | endpoint
  | construct
deriving DecidableEq

/-- The `NodeV2` tagged union of node descriptors. -/
inductive NodeV2 : Type where
  | container : List String → NodeV2
  | autoId : NodeV2
  | function : NodeV2
  | scheduler : NodeV2
  | endpoint : NodeV2
  | construct : List NodeInflight → NodeV2
deriving DecidableEq

/-- The discriminant of a descriptor. -/
def NodeV2.tag : NodeV2 → NodeTypeTag
  | .container _ => .container
  | .autoId => .autoId
  | .function => .function
  | .scheduler => .scheduler
  | .endpoint => .endpoint
  | .construct _ => .construct

/-- A JavaScript-truthy optional string: `some s` with `s` non-empty passes
through, `none` and the empty string are absent. -/
def presentOp : Option String → Option String
  | some s => if s = "" then none else some s
  | none => none

/-- Classification of a single node (`getNodeType`): well-known resource kinds
map directly; otherwise a node is a `construct` when it is the API kind, has an
incident connection, or has no child whose declared hidden flag is falsy. -/
def getNodeType (node : CTNode) (hasInflightConnections : Bool) : NodeTypeTag :=
  if node.fqn = some "@winglang/sdk.cloud.Function" then .function
  else if node.fqn = some "@winglang/sdk.std.AutoIdResource" then .autoId
  else if node.fqn = some "@winglang/sdk.cloud.Schedule" then .scheduler
  else if node.fqn = some "@winglang/sdk.cloud.Endpoint" then .endpoint
  else
    let hasVisibleChildren := node.childNodes.any fun child => !child.declaredHidden
    if node.fqn = some "@winglang/sdk.cloud.Api" || hasInflightConnections || !hasVisibleChildren then
      .construct
    else
      .container

/-- First-occurrence deduplication (the behavior of `lodash.uniqby` with the
identity iteratee), with an accumulator of already-seen elements. -/
def uniqAux (seen : List String) : List String → List String
  | [] => []
  | a :: l => if a ∈ seen then uniqAux seen l else a :: uniqAux (a :: seen) l

/-- First-occurrence deduplication of a list of strings. -/
def uniqFirst (l : List String) : List String :=
  uniqAux [] l

/-- The inflight records of a node (`getNodeInflights`): all truthy target
operations of connections targeting the node, then all truthy source
operations of connections sourced at the node, deduplicated keeping first
occurrences, each mapped to a record with occupancy flags. -/
def getNodeInflights (node : CTNode) (connections : List MapConnection) : List NodeInflight :=
  let inflights :=
    ((connections.filter fun c => c.target.id = node.path).filterMap fun c =>
      presentOp c.target.operation) ++
    ((connections.filter fun c => c.source.id = node.path).filterMap fun c =>
      presentOp c.source.operation)
  (uniqFirst inflights).map fun nm =>
    { id := node.path ++ "#" ++ nm
      name := nm
      sourceOccupied := connections.any fun oc =>
        oc.source.id = node.path && oc.source.operation = some nm
      targetOccupied := connections.any fun oc =>
        oc.target.id = node.path && oc.target.operation = some nm }

mutual

/-- The `nodeFqns` map: every node path paired with its `constructInfo.fqn`,
collected in preorder over the whole raw tree. -/
def collectFqns : CTNode → List (String × Option String)
  | .node p f _ cs => (p, f) :: collectFqnsChildren cs

def collectFqnsChildren : List (String × CTNode) → List (String × Option String)
  | [] => []
  | (_, c) :: rest => collectFqns c ++ collectFqnsChildren rest

end

mutual

/-- The `nodeTypes` map: every node path paired with its classification, where
an incident connection is looked for in the RAW connection list (before the
deferred-invocation filter and before bridging). -/
def nodeTypesEntries (raw : List RawConnectionData) : CTNode → List (String × NodeTypeTag)
  | .node p f h cs =>
    (p, getNodeType (.node p f h cs)
        (raw.any fun c => c.source = p || c.target = p)) ::
      nodeTypesChildren raw cs

def nodeTypesChildren (raw : List RawConnectionData) :
    List (String × CTNode) → List (String × NodeTypeTag)
  | [] => []
  | (_, c) :: rest => nodeTypesEntries raw c ++ nodeTypesChildren raw rest

end

mutual

/-- The visibility traversal: each node is recorded with
`forceHidden || declaredHidden`, and that value is forced onto the subtree. -/
def collectHidden (forceHidden : Bool) : CTNode → List (String × Bool)
  | .node p _ h cs =>
    let hidden := forceHidden || (h.getD false)
    (p, hidden) :: collectHiddenChildren hidden cs

def collectHiddenChildren (forceHidden : Bool) : List (String × CTNode) → List (String × Bool)
  | [] => []
  | (_, c) :: rest => collectHidden forceHidden c ++ collectHiddenChildren forceHidden rest

end

/-- The children of the pseudo root (`rawTree.children?.["Default"]`), the
designated starting scope of the visibility traversal and the root nodes list. -/
def pseudoRootChildren (rawTree : CTNode) : List CTNode :=
  match rawTree.childPairs.lookup "Default" with
  | some d => d.childNodes
  | none => []

/-- The `hiddenMap`: effective hidden flags for all nodes at or below the
children of the pseudo root, starting with no forced hiding. -/
def hiddenMapEntries (rawTree : CTNode) : List (String × Bool) :=
  (pseudoRootChildren rawTree).flatMap (collectHidden false)

/-- The lazy regex `^(.+?)#` of `isNodeHidden`: the shortest non-empty prefix
ending right before a `#`, i.e. everything before the first `#` that occurs at
index one or later; if there is no such `#` the whole string is kept. -/
def stripOpSuffix (path : String) : String :=
  match path.data with
  | [] => path
  | c :: rest =>
    if rest.any (· = '#') then ⟨c :: rest.takeWhile (fun ch => !(ch = '#'))⟩ else path

/-- The `isNodeHidden` predicate: strip an operation suffix, then look the
path up in the hidden map; absent paths count as visible. -/
def isNodeHidden (hm : List (String × Bool)) (path : String) : Bool :=
  (hm.lookup (stripOpSuffix path)) = some true

/-- Whether a path contains a segment separator. -/
def hasSlash (p : String) : Bool :=
  p.data.any (· = '/')

/-- The parent path: everything before the last `/`; a path without `/` has
itself stripped to the empty string only through the reverse machinery, but
`ascend` never asks for the parent of such a path. -/
def parentPath (p : String) : String :=
  ⟨((p.data.reverse.dropWhile fun c => !(c = '/')).tail).reverse⟩

/-- Modelled from the spec: the ascent loop of the Connection Bridger
(`use-map.bridge-connections.ts` is not among the visible sources). While the
current path is hidden, replace it with its parent path; stop at the first
visible path or at a path with no parent (the root, treated as visible by
construction). Fuel bounds the loop; callers pass the path length, which
strictly exceeds the number of possible ascent steps. -/
def ascend (isHid : String → Bool) : Nat → String → String
  | 0, p => p
  | fuel + 1, p =>
    if !isHid p then p
    else if !hasSlash p then p
    else ascend isHid fuel (parentPath p)

/-- Modelled from the spec: bridge one endpoint by ascending its id to the
nearest visible ancestor; the operation (and the recorded resource kind) are
preserved unchanged through ascent. -/
def bridgeEnd (isHid : String → Bool) (e : ConnectionEnd) : ConnectionEnd :=
  { e with id := ascend isHid e.id.length e.id }

/-- The dedup identity of a bridged connection:
`(source.id, source.operation, target.id, target.operation)`. -/
def connKey (c : MapConnection) : String × Option String × String × Option String :=
  (c.source.id, c.source.operation, c.target.id, c.target.operation)

/-- Keep the first connection for every dedup key. -/
def dedupConnections : List MapConnection →
    List (String × Option String × String × Option String) → List MapConnection
  | [], _ => []
  | c :: rest, seen =>
    if connKey c ∈ seen then dedupConnections rest seen
    else c :: dedupConnections rest (connKey c :: seen)

/-- Modelled from the spec: the Connection Bridger
(`use-map.bridge-connections.ts` is not among the visible sources). Each
endpoint ascends to its nearest visible ancestor, connections whose endpoints
bridge to the same node are dropped, and connections with equal
`(source.id, source.operation, target.id, target.operation)` keys are merged
keeping the first. -/
def bridgeConnections (isHid : String → Bool) (conns : List MapConnection) : List MapConnection :=
  dedupConnections
    ((conns.map fun c =>
        { source := bridgeEnd isHid c.source, target := bridgeEnd isHid c.target }).filter
      fun c => !(c.source.id = c.target.id))
    []

/-- The predicate of the upstream filter: a raw connection survives when
neither operation is the reserved deferred-invocation alias. -/
def okRaw (c : RawConnectionData) : Bool :=
  !(c.sourceOp = some "invokeAsync") && !(c.targetOp = some "invokeAsync")

/-- The list handed to the Connection Bridger: raw connections with the
deferred-invocation alias filtered out, mapped to endpoint records that carry
the node fqn looked up in the `nodeFqns` map. -/
def preBridge (rawTree : CTNode) (raw : List RawConnectionData) : List MapConnection :=
  let fqns := collectFqns rawTree
  (raw.filter okRaw).map fun c =>
    { source := { id := c.source, nodeFqn := (fqns.lookup c.source).join, operation := c.sourceOp }
      target := { id := c.target, nodeFqn := (fqns.lookup c.target).join, operation := c.targetOp } }

/-- The `connections` memo: the bridged connections of the whole pipeline. -/
def connectionsOf (rawTree : CTNode) (raw : List RawConnectionData) : List MapConnection :=
  bridgeConnections (isNodeHidden (hiddenMapEntries rawTree)) (preBridge rawTree raw)

/-- The `getConnectionId` port assigner: hidden nodes collapse to the bare
path; function-kind nodes always expose the single `invoke` port; otherwise a
truthy operation gets its own port and the default port has no operation. -/
def getConnectionId (hm : List (String × Bool)) (nodePath : String)
    (nodeFqn : Option String) (operation : Option String) (ty : String) : String :=
  if isNodeHidden hm nodePath then nodePath
  else if nodeFqn = some "@winglang/sdk.cloud.Function" then
    nodePath ++ "#invoke#" ++ ty
  else
    match presentOp operation with
    | some op => nodePath ++ "#" ++ op ++ "#" ++ ty
    | none => nodePath ++ "#" ++ ty

/-- A final edge handed to the layout engine. -/
structure ElkEdge where
  id : String
  sources : List String
  targets : List String
deriving DecidableEq

/-- The `edges` memo: one edge per bridged connection, whose id concatenates
the two port identifiers. -/
def edges (hm : List (String × Bool)) (conns : List MapConnection) : List ElkEdge :=
  conns.map fun c =>
    let source := getConnectionId hm c.source.id c.source.nodeFqn c.source.operation "source"
    let target := getConnectionId hm c.target.id c.target.nodeFqn c.target.operation "target"
    { id := source ++ "##" ++ target, sources := [source], targets := [target] }

/-- The edges of the whole pipeline. -/
def edgesOf (rawTree : CTNode) (raw : List RawConnectionData) : List ElkEdge :=
  edges (hiddenMapEntries rawTree) (connectionsOf rawTree raw)

/-- The descriptor stored for one node by the `nodeInfo` traversal: the
switch over the classified type, whose `scheduler` and `endpoint` cases fall
through into the default case, which stores a `construct` descriptor carrying
the inflight records. Classification consults the BRIDGED connections here. -/
def nodeDescriptor (conns : List MapConnection) (n : CTNode) : NodeV2 :=
  match getNodeType n (conns.any fun c => c.source.id = n.path || c.target.id = n.path) with
  | .container => .container (n.childNodes.map CTNode.path)
  | .autoId => .autoId
  | .function => .function
  | _ => .construct (getNodeInflights n conns)

mutual

/-- The `nodeInfo` map: every node of the raw tree paired with its descriptor. -/
def nodeInfoEntries (conns : List MapConnection) : CTNode → List (String × NodeV2)
  | .node p f h cs =>
    (p, nodeDescriptor conns (.node p f h cs)) :: nodeInfoChildren conns cs

def nodeInfoChildren (conns : List MapConnection) : List (String × CTNode) → List (String × NodeV2)
  | [] => []
  | (_, c) :: rest => nodeInfoEntries conns c ++ nodeInfoChildren conns rest

end

/-- The `nodeInfo` map of the whole pipeline. -/
def nodeInfoOf (rawTree : CTNode) (raw : List RawConnectionData) : List (String × NodeV2) :=
  nodeInfoEntries (connectionsOf rawTree raw) rawTree

/-! ### Helper lemmas about first-occurrence deduplication -/

theorem mem_uniqAux (x : String) : ∀ (l s : List String), x ∈ uniqAux s l ↔ (x ∈ l ∧ x ∉ s)
  | [], s => by simp [uniqAux]
  | a :: l, s => by
    by_cases ha : a ∈ s
    · rw [uniqAux, if_pos ha, mem_uniqAux x l s]
      constructor
      · exact fun h => ⟨List.mem_cons_of_mem a h.1, h.2⟩
      · rintro ⟨h1, h2⟩
        rcases List.mem_cons.mp h1 with rfl | h1
        · exact absurd ha h2
        · exact ⟨h1, h2⟩
    · rw [uniqAux, if_neg ha]
      constructor
      · intro hx
        rcases List.mem_cons.mp hx with rfl | hx
        · exact ⟨List.mem_cons_self _ _, ha⟩
        · have h := (mem_uniqAux x l (a :: s)).mp hx
          exact ⟨List.mem_cons_of_mem _ h.1, fun hxs => h.2 (List.mem_cons_of_mem _ hxs)⟩
      · rintro ⟨h1, h2⟩
        rcases List.mem_cons.mp h1 with rfl | h1
        · exact List.mem_cons_self _ _
        · by_cases hxa : x = a
          · subst hxa; exact List.mem_cons_self _ _
          · refine List.mem_cons_of_mem _ ((mem_uniqAux x l (a :: s)).mpr ⟨h1, ?_⟩)
            intro hmem
            rcases List.mem_cons.mp hmem with h | h
            · exact hxa h
            · exact h2 h

theorem uniqAux_congr : ∀ (l : List String) {s₁ s₂ : List String},
    (∀ x, x ∈ s₁ ↔ x ∈ s₂) → uniqAux s₁ l = uniqAux s₂ l
  | [], _, _, _ => rfl
  | a :: l, s₁, s₂, h => by
    by_cases ha : a ∈ s₁
    · rw [uniqAux, if_pos ha, uniqAux, if_pos ((h a).mp ha), uniqAux_congr l h]
    · rw [uniqAux, if_neg ha, uniqAux, if_neg (fun hx => ha ((h a).mpr hx))]
      refine congrArg _ (uniqAux_congr l fun x => ?_)
      simp only [List.mem_cons]
      exact or_congr Iff.rfl (h x)

theorem uniqAux_append : ∀ (l₁ l₂ s : List String),
    uniqAux s (l₁ ++ l₂) = uniqAux s l₁ ++ uniqAux (l₁ ++ s) l₂
  | [], l₂, s => by simp [uniqAux]
  | a :: l₁, l₂, s => by
    by_cases ha : a ∈ s
    · rw [List.cons_append, uniqAux, if_pos ha, uniqAux, if_pos ha, uniqAux_append l₁ l₂ s]
      refine congrArg _ (uniqAux_congr l₂ fun x => ?_)
      simp only [List.mem_append, List.mem_cons]
      constructor
      · rintro (h | h)
        · exact Or.inl (Or.inr h)
        · exact Or.inr h
      · rintro (h | h)
        · rcases h with rfl | h
          · exact Or.inr ha
          · exact Or.inl h
        · exact Or.inr h
    · rw [List.cons_append, uniqAux, if_neg ha, uniqAux, if_neg ha,
        uniqAux_append l₁ l₂ (a :: s), List.cons_append]
      refine congrArg _ (congrArg _ (uniqAux_congr l₂ fun x => ?_))
      simp only [List.mem_append, List.mem_cons]
      tauto

theorem uniqAux_uniqAux : ∀ (l : List String) {s t : List String},
    (∀ x, x ∈ t → x ∈ s) → uniqAux s (uniqAux t l) = uniqAux s l
  | [], _, _, _ => rfl
  | a :: l, s, t, h => by
    by_cases hat : a ∈ t
    · rw [uniqAux, if_pos hat, uniqAux_uniqAux l h, uniqAux, if_pos (h a hat)]
    · by_cases has : a ∈ s
      · rw [uniqAux, if_neg hat, uniqAux, if_pos has, uniqAux, if_pos has]
        refine uniqAux_uniqAux l fun x hx => ?_
        rcases List.mem_cons.mp hx with rfl | hx
        · exact has
        · exact h x hx
      · rw [uniqAux, if_neg hat, uniqAux, if_neg has, uniqAux, if_neg has]
        refine congrArg _ (uniqAux_uniqAux l fun x hx => ?_)
        rcases List.mem_cons.mp hx with rfl | hx
        · exact List.mem_cons_self _ _
        · exact List.mem_cons_of_mem _ (h x hx)

theorem uniqFirst_uniq_append (a b : List String) :
    uniqFirst (uniqFirst a ++ uniqFirst b) = uniqFirst (a ++ b) := by
  unfold uniqFirst
  rw [uniqAux_append (uniqAux [] a) (uniqAux [] b) [],
    uniqAux_append a b [],
    uniqAux_uniqAux a (by intro x hx; exact hx),
    uniqAux_uniqAux b (by intro x hx; simp at hx)]
  refine congrArg _ (uniqAux_congr b fun x => ?_)
  simp only [List.append_nil, mem_uniqAux]
  simp

/-! ### The Inflight Aggregator against its specification -/

/-- The Inflight Aggregator as the specification words it: the distinct
operation names appearing as target operation of bridged connections whose
target is the node, followed by the distinct names appearing as source
operation of bridged connections whose source is the node, in first-seen
order, deduplicated by name; each name becomes one record with the derived id
and the two occupancy flags. -/
def inflightsSpec (node : CTNode) (connections : List MapConnection) : List NodeInflight :=
  let targetNames :=
    uniqFirst ((connections.filter fun c => c.target.id = node.path).filterMap fun c =>
      presentOp c.target.operation)
  let sourceNames :=
    uniqFirst ((connections.filter fun c => c.source.id = node.path).filterMap fun c =>
      presentOp c.source.operation)
  (uniqFirst (targetNames ++ sourceNames)).map fun nm =>
    { id := node.path ++ "#" ++ nm
      name := nm
      sourceOccupied := connections.any fun oc =>
        oc.source.id = node.path && oc.source.operation = some nm
      targetOccupied := connections.any fun oc =>
        oc.target.id = node.path && oc.target.operation = some nm }

/-- C2: for every node and list of bridged connections, the inflight records
are exactly one record per distinct truthy operation name at an endpoint of a
bridged connection incident to the node, target-endpoint names first in
first-seen order, then source-endpoint names, deduplicated by name; each
record carries the id "<nodePath>#<operationName>" and occupancy flags that
hold exactly when some bridged connection uses the name at the node in the
corresponding role. A node with no incident bridged connection yields the
empty list, since both name lists are then empty. -/
theorem c2_inflights_match_spec (node : CTNode) (connections : List MapConnection) :
    getNodeInflights node connections = inflightsSpec node connections := by
  unfold getNodeInflights inflightsSpec
  simp only [uniqFirst_uniq_append]

/-! ### Reachability in the construct tree and association-list lookups -/

/-- Membership of a node in the subtree rooted at another node. -/
inductive InReach : CTNode → CTNode → Prop
  | refl (n : CTNode) : InReach n n
  | step {n c m : CTNode} (hc : c ∈ n.childNodes) (h : InReach c m) : InReach n m

theorem lookup_eq_of_nodup_mem {β : Type _} :
    ∀ (l : List (String × β)) (k : String) (v : β),
      (l.map Prod.fst).Nodup → (k, v) ∈ l → l.lookup k = some v
  | [], _, _, _, hm => by cases hm
  | (k', v') :: l, k, v, hN, hm => by
    rw [List.map_cons] at hN
    rcases List.nodup_cons.mp hN with ⟨hnotin, hN'⟩
    rcases List.mem_cons.mp hm with h | hm'
    · cases h
      simp [List.lookup]
    · have hk : ¬ (k = k') := by
        rintro rfl
        exact hnotin (List.mem_map.mpr ⟨(k, v), hm', rfl⟩)
      have hbeq : (k == k') = false := beq_eq_false_iff_ne.mpr hk
      rw [List.lookup, hbeq]
      exact lookup_eq_of_nodup_mem l k v hN' hm'

theorem mem_nodeTypesChildren {raw : List RawConnectionData} {x : String × NodeTypeTag} :
    ∀ {cs : List (String × CTNode)} {c : CTNode}, c ∈ cs.map Prod.snd →
      x ∈ nodeTypesEntries raw c → x ∈ nodeTypesChildren raw cs := by
  intro cs
  induction cs with
  | nil => intro c hc _; simp at hc
  | cons p cs ih =>
    intro c hc hx
    rcases p with ⟨nm, cn⟩
    rw [nodeTypesChildren]
    simp only [List.map_cons, List.mem_cons] at hc
    rcases hc with rfl | hc
    · exact List.mem_append_left _ hx
    · exact List.mem_append_right _ (ih hc hx)

theorem nodeTypes_mem_of_reach {raw : List RawConnectionData} {n m : CTNode}
    (h : InReach n m) :
    (m.path, getNodeType m (raw.any fun c => c.source = m.path || c.target = m.path)) ∈
      nodeTypesEntries raw n := by
  induction h with
  | refl n =>
    cases n with
    | node p f hd cs =>
      rw [nodeTypesEntries]
      exact List.mem_cons_self _ _
  | @step n c m hc h ih =>
    cases n with
    | node p f hd cs =>
      rw [nodeTypesEntries]
      refine List.mem_cons_of_mem _ (mem_nodeTypesChildren ?_ ih)
      simpa [CTNode.childNodes, CTNode.childPairs] using hc

/-! ### The Tree Classifier role map (claim C1) -/

/-- The structural fallback of the amended classification rule: the
aggregate-with-routes kind, an incident raw connection, or the absence of a
child with a falsy declared hidden flag force `construct`; otherwise
`container`. -/
def structuralRole (n : CTNode) (incident : Bool) : NodeTypeTag :=
  if n.fqn = some "@winglang/sdk.cloud.Api" ∨ incident = true ∨
      n.childNodes.all (fun c => c.declaredHidden) then
    .construct
  else
    .container

/-- The decision order of the per-path role map as amended: well-known kinds
map directly, and the fallback uses participation in RAW connections together
with the children's DECLARED hidden flags. -/
def roleOfSpec (n : CTNode) (incident : Bool) : NodeTypeTag :=
  match n.fqn with
  | some fq =>
    if fq = "@winglang/sdk.cloud.Function" then .function
    else if fq = "@winglang/sdk.std.AutoIdResource" then .autoId
    else if fq = "@winglang/sdk.cloud.Schedule" then .scheduler
    else if fq = "@winglang/sdk.cloud.Endpoint" then .endpoint
    else structuralRole n incident
  | none => structuralRole n incident

theorem all_hidden_eq_bang_any (l : List CTNode) :
    (l.all fun c => c.declaredHidden) = !(l.any fun c => !c.declaredHidden) := by
  induction l with
  | nil => rfl
  | cons a l ih => simp [List.all_cons, List.any_cons, Bool.not_or, Bool.not_not, ih]

theorem roleOfSpec_eq_getNodeType (n : CTNode) (b : Bool) :
    roleOfSpec n b = getNodeType n b := by
  have hall := all_hidden_eq_bang_any n.childNodes
  cases hf : n.fqn with
  | none =>
    simp only [roleOfSpec, getNodeType, structuralRole, hf]
    by_cases hb : b
    · simp [hb]
    · simp [hb, hall]
  | some fq =>
    simp only [roleOfSpec, getNodeType, structuralRole, hf]
    by_cases h1 : fq = "@winglang/sdk.cloud.Function"
    · simp [h1]
    · by_cases h2 : fq = "@winglang/sdk.std.AutoIdResource"
      · simp [h1, h2]
      · by_cases h3 : fq = "@winglang/sdk.cloud.Schedule"
        · simp [h1, h2, h3]
        · by_cases h4 : fq = "@winglang/sdk.cloud.Endpoint"
          · simp [h1, h2, h3, h4]
          · by_cases hb : b
            · simp [h1, h2, h3, h4, hb]
            · simp [h1, h2, h3, h4, hb, hall]

/-- C1 (amended): for every tree node, the role assigned in the per-path role
map follows the decision order: the four well-known kinds map directly to
function, autoId, scheduler and endpoint; otherwise the node is a construct
when its kind is the aggregate-with-routes (API) kind, or it participates in
some RAW connection (before the deferred-invocation filter and before
bridging) as source or target, or no child of it has a falsy DECLARED hidden
flag; otherwise it is a container. -/
theorem c1_role_map (t : CTNode) (raw : List RawConnectionData) (n : CTNode)
    (hN : ((nodeTypesEntries raw t).map Prod.fst).Nodup) (hr : InReach t n) :
    (nodeTypesEntries raw t).lookup n.path =
      some (roleOfSpec n (raw.any fun c => c.source = n.path || c.target = n.path)) := by
  rw [roleOfSpec_eq_getNodeType]
  exact lookup_eq_of_nodup_mem _ _ _ hN (nodeTypes_mem_of_reach hr)

/-- The node at path "root/Default/A/B", a declared-visible leaf. -/
def nodeB0 : CTNode := .node "root/Default/A/B" none none []

/-- The node at path "root/Default/A": no resource kind, one visible child. -/
def nodeA0 : CTNode := .node "root/Default/A" none none [("B", nodeB0)]

/-- A tree root -> Default -> A -> B with nothing hidden. -/
def tree0 : CTNode :=
  .node "root" none none [("Default", .node "root/Default" none none [("A", nodeA0)])]

/-- One raw connection sourced at A whose source operation is the reserved
deferred-invocation alias, so it is dropped before bridging. -/
def raws0 : List RawConnectionData :=
  [{ source := "root/Default/A", target := "root/Default/A/B",
     sourceOp := some "invokeAsync", targetOp := none, name := "c" }]

/-- Witness for C1: the amended rule evaluated on the concrete tree. -/
theorem c1_role_map_witness :
    (nodeTypesEntries raws0 tree0).lookup (CTNode.path tree0) =
      some (roleOfSpec tree0 (raws0.any fun c =>
        c.source = CTNode.path tree0 || c.target = CTNode.path tree0)) :=
  c1_role_map tree0 raws0 tree0 (by decide) (.refl tree0)

/-- The structural fallback exactly as the claim states it: the API kind, or
participation in some BRIDGED connection, or no EFFECTIVELY visible child
force construct. -/
def roleOfClaimStruct (n : CTNode) (incidentBridged hasEffVisibleChild : Bool) : NodeTypeTag :=
  if n.fqn = some "@winglang/sdk.cloud.Api" ∨ incidentBridged = true ∨
      hasEffVisibleChild = false then
    .construct
  else
    .container

/-- The classification rule exactly as claim C1 states it. -/
def roleOfClaim (n : CTNode) (incidentBridged hasEffVisibleChild : Bool) : NodeTypeTag :=
  match n.fqn with
  | some fq =>
    if fq = "@winglang/sdk.cloud.Function" then .function
    else if fq = "@winglang/sdk.std.AutoIdResource" then .autoId
    else if fq = "@winglang/sdk.cloud.Schedule" then .scheduler
    else if fq = "@winglang/sdk.cloud.Endpoint" then .endpoint
    else roleOfClaimStruct n incidentBridged hasEffVisibleChild
  | none => roleOfClaimStruct n incidentBridged hasEffVisibleChild

/-- C1 counterexample: node A participates in no bridged connection (its only
raw connection carries the deferred-invocation alias and is filtered before
bridging) and has an effectively visible child, so the claim classifies it
container; the role map, which consults RAW connections, stores construct. -/
theorem c1_role_map_cx :
    ¬ ((nodeTypesEntries raws0 tree0).lookup "root/Default/A" =
      some (roleOfClaim nodeA0
        ((connectionsOf tree0 raws0).any fun c =>
          c.source.id = "root/Default/A" || c.target.id = "root/Default/A")
        (nodeA0.childNodes.any fun c =>
          !(isNodeHidden (hiddenMapEntries tree0) c.path)))) := by
  decide

/-! ### The operation-suffix stripping of isNodeHidden (claims C4, C9) -/

theorem stripOpSuffix_eq_self {p : String} (h : p.data.any (· = '#') = false) :
    stripOpSuffix p = p := by
  unfold stripOpSuffix
  split
  · rfl
  · next c rest heq =>
    rw [heq] at h
    simp only [List.any_cons, Bool.or_eq_false_iff] at h
    rw [if_neg]
    simp [h.2]

theorem takeWhile_append_hash : ∀ (l m : List Char), (∀ x ∈ l, ¬ (x = '#')) →
    ((l ++ '#' :: m).takeWhile fun ch => !(ch = '#')) = l
  | [], m, _ => by simp [List.takeWhile_cons]
  | a :: l, m, h => by
    have ha : ¬ (a = '#') := h a (List.mem_cons_self _ _)
    rw [List.cons_append, List.takeWhile_cons]
    simp only [ha, decide_False, Bool.not_false, if_true]
    rw [takeWhile_append_hash l m fun x hx => h x (List.mem_cons_of_mem _ hx)]

theorem stripOpSuffix_append {q : String} (op : String)
    (hq : q.data.any (· = '#') = false) (hne : q ≠ "") :
    stripOpSuffix (q ++ "#" ++ op) = q := by
  rcases q with ⟨qd⟩
  rcases op with ⟨od⟩
  change qd.any (· = '#') = false at hq
  have hq2 : ∀ x ∈ qd, ¬ (x = '#') := by
    intro x hx hx2
    have htrue : qd.any (· = '#') = true :=
      List.any_eq_true.mpr ⟨x, hx, by simp [hx2]⟩
    rw [htrue] at hq
    cases hq
  have hqd : qd ≠ [] := fun hnil => hne (by rw [hnil])
  cases qd with
  | nil => exact absurd rfl hqd
  | cons c rest =>
    have hs : (String.mk (c :: rest) ++ "#" ++ String.mk od) =
        String.mk (c :: (rest ++ '#' :: od)) := by
      show String.mk (((c :: rest) ++ ['#']) ++ od) = String.mk (c :: (rest ++ '#' :: od))
      exact congrArg String.mk (by simp)
    rw [hs]
    show (if (rest ++ '#' :: od).any (· = '#') then
        (⟨c :: ((rest ++ '#' :: od).takeWhile fun ch => !(ch = '#'))⟩ : String)
      else String.mk (c :: (rest ++ '#' :: od))) = String.mk (c :: rest)
    rw [if_pos (List.any_eq_true.mpr
      ⟨'#', List.mem_append_right _ (List.mem_cons_self _ _), by simp⟩)]
    exact congrArg String.mk (congrArg (c :: ·)
      (takeWhile_append_hash rest od fun x hx => hq2 x (List.mem_cons_of_mem _ hx)))

/-! ### The Edge Port Assigner (claim C4) and isNodeHidden safety (claim C9) -/

/-- The port identifier rules as the specification words them, against an
abstract effective-hidden predicate consulted on the bare node path: a hidden
node collapses to the bare path; a function-kind node always exposes the
single invoke port; a present (truthy) operation gets its own port; otherwise
the direction-only default port. -/
def portIdSpec (isHid : String → Bool) (nodePath : String) (nodeFqn : Option String)
    (operation : Option String) (direction : String) : String :=
  if isHid nodePath then nodePath
  else if nodeFqn = some "@winglang/sdk.cloud.Function" then
    nodePath ++ "#invoke#" ++ direction
  else
    match presentOp operation with
    | some op => nodePath ++ "#" ++ op ++ "#" ++ direction
    | none => nodePath ++ "#" ++ direction

/-- C4: for every endpoint, the port identifier follows the first matching
rule: hidden node gives the bare path, function kind gives
"<path>#invoke#<direction>" regardless of the operation, a present operation
gives "<path>#<operation>#<direction>", and otherwise "<path>#<direction>";
on paths without a "#" the operation-suffix stripping inside the hidden check
is the identity, so the code agrees with the rules stated over the effective
hidden flag of the bare path. -/
theorem c4_port_rules (hm : List (String × Bool)) (p : String) (fqn : Option String)
    (op : Option String) (dir : String) (hp : p.data.any (· = '#') = false) :
    getConnectionId hm p fqn op dir =
      portIdSpec (fun q => decide (hm.lookup q = some true)) p fqn op dir := by
  unfold getConnectionId portIdSpec isNodeHidden
  rw [stripOpSuffix_eq_self hp]

/-- Witness for C4 at a concrete hidden map and endpoint. -/
theorem c4_port_rules_witness :
    getConnectionId [("root/a", true)] "root/b" none (some "get") "target" =
      portIdSpec (fun q => decide ((List.lookup q [("root/a", true)]) = some true))
        "root/b" none (some "get") "target" :=
  c4_port_rules [("root/a", true)] "root/b" none (some "get") "target" (by decide)

/-- C9: isNodeHidden is a total function; a path whose stripped form is
absent from the visibility map yields false, and a query on an
operation-suffixed path "path#operation" yields the hidden status of the bare
path (for a non-empty bare path that itself contains no "#"). -/
theorem c9_hidden_safety (hm : List (String × Bool)) (p q op : String)
    (h1 : hm.lookup (stripOpSuffix p) = none)
    (h2 : q.data.any (· = '#') = false) (h3 : q ≠ "") :
    isNodeHidden hm p = false ∧ isNodeHidden hm (q ++ "#" ++ op) = isNodeHidden hm q := by
  constructor
  · unfold isNodeHidden
    rw [h1]
    rfl
  · unfold isNodeHidden
    rw [stripOpSuffix_append op h2 h3, stripOpSuffix_eq_self h2]

/-- Witness for C9: an unknown path queries to false, and a suffixed query
equals the bare query, on a concrete map. -/
theorem c9_hidden_safety_witness :
    isNodeHidden [("root/a", true)] "root/zz" = false ∧
      isNodeHidden [("root/a", true)] ("root/a" ++ "#" ++ "get") =
        isNodeHidden [("root/a", true)] "root/a" :=
  c9_hidden_safety [("root/a", true)] "root/zz" "root/a" "get" (by decide) (by decide)
    (by decide)

/-! ### Inflights require a truthy operation (claim C10) -/

/-- C10: an inflight record is created only for a truthy endpoint operation:
when every bridged connection incident to the node carries an absent
(undefined or empty-string) operation at the node's endpoint, the node's
inflight list is empty even though it participates in connections. -/
theorem c10_no_truthy_ops (n : CTNode) (conns : List MapConnection)
    (h : ∀ c ∈ conns, (c.target.id = n.path → presentOp c.target.operation = none) ∧
      (c.source.id = n.path → presentOp c.source.operation = none)) :
    getNodeInflights n conns = [] := by
  unfold getNodeInflights
  have ht : ((conns.filter fun c => c.target.id = n.path).filterMap fun c =>
      presentOp c.target.operation) = [] := by
    rw [List.filterMap_eq_nil_iff]
    intro c hc
    rcases List.mem_filter.mp hc with ⟨hmem, hpred⟩
    exact (h c hmem).1 (by simpa using hpred)
  have hs : ((conns.filter fun c => c.source.id = n.path).filterMap fun c =>
      presentOp c.source.operation) = [] := by
    rw [List.filterMap_eq_nil_iff]
    intro c hc
    rcases List.mem_filter.mp hc with ⟨hmem, hpred⟩
    exact (h c hmem).2 (by simpa using hpred)
  simp only [ht, hs]
  rfl

/-- Connections incident to node A that carry no truthy operation at A's
endpoints: one sourced at A with no source operation, one targeting A with an
empty-string target operation. -/
def connsNoOps : List MapConnection :=
  [{ source := { id := "root/Default/A", nodeFqn := none, operation := none }
     target := { id := "x", nodeFqn := none, operation := some "get" } },
   { source := { id := "y", nodeFqn := none, operation := some "put" }
     target := { id := "root/Default/A", nodeFqn := none, operation := some "" } }]

/-- Witness for C10: node A participates in two connections but has no
inflight records. -/
theorem c10_no_truthy_ops_witness : getNodeInflights nodeA0 connsNoOps = [] :=
  c10_no_truthy_ops nodeA0 connsNoOps (by decide)

/-! ### Exclusion of deferred-invocation connections (claim C7) -/

/-- C7: raw connections whose source or target operation is the reserved
deferred-invocation alias are excluded before bridging: removing them from
the raw input changes neither the pre-bridge list, nor the bridged
connections, nor any inflight list, nor the final edges; and no connection
handed to the Connection Bridger carries the alias at either endpoint. -/
theorem c7_invoke_async_excluded (t : CTNode) (raw : List RawConnectionData) :
    preBridge t (raw.filter okRaw) = preBridge t raw ∧
    connectionsOf t (raw.filter okRaw) = connectionsOf t raw ∧
    edgesOf t (raw.filter okRaw) = edgesOf t raw ∧
    (∀ n : CTNode, getNodeInflights n (connectionsOf t (raw.filter okRaw)) =
      getNodeInflights n (connectionsOf t raw)) ∧
    ∀ c ∈ preBridge t raw, ¬ c.source.operation = some "invokeAsync" ∧
      ¬ c.target.operation = some "invokeAsync" := by
  have hfilter : (raw.filter okRaw).filter okRaw = raw.filter okRaw := by
    rw [List.filter_filter]
    simp [Bool.and_self]
  have h1 : preBridge t (raw.filter okRaw) = preBridge t raw := by
    unfold preBridge
    rw [hfilter]
  refine ⟨h1, ?_, ?_, ?_, ?_⟩
  · unfold connectionsOf
    rw [h1]
  · unfold edgesOf connectionsOf
    rw [h1]
  · intro n
    unfold connectionsOf
    rw [h1]
  · intro c hc
    unfold preBridge at hc
    rcases List.mem_map.mp hc with ⟨rc, hrc, rfl⟩
    rcases List.mem_filter.mp hrc with ⟨_, hok⟩
    unfold okRaw at hok
    rcases Bool.and_eq_true_iff.mp hok with ⟨hsrc, htgt⟩
    constructor
    · simpa using hsrc
    · simpa using htgt

/-- Witness for C7 on the concrete tree and raw connection list. -/
theorem c7_invoke_async_excluded_witness :
    preBridge tree0 (raws0.filter okRaw) = preBridge tree0 raws0 ∧
    connectionsOf tree0 (raws0.filter okRaw) = connectionsOf tree0 raws0 ∧
    edgesOf tree0 (raws0.filter okRaw) = edgesOf tree0 raws0 ∧
    (∀ n : CTNode, getNodeInflights n (connectionsOf tree0 (raws0.filter okRaw)) =
      getNodeInflights n (connectionsOf tree0 raws0)) ∧
    ∀ c ∈ preBridge tree0 raws0, ¬ c.source.operation = some "invokeAsync" ∧
      ¬ c.target.operation = some "invokeAsync" :=
  c7_invoke_async_excluded tree0 raws0

/-! ### Bridging soundness (claim C8) -/

theorem parentPath_length_lt (p : String) (h : hasSlash p = true) :
    (parentPath p).length < p.length := by
  unfold hasSlash at h
  have hmem : '/' ∈ p.data.reverse := by
    rcases List.any_eq_true.mp h with ⟨x, hx, hxp⟩
    have hx2 : x = '/' := by simpa using hxp
    subst hx2
    exact List.mem_reverse.mpr hx
  have hne : p.data.reverse.dropWhile (fun c => !(c = '/')) ≠ [] := by
    intro hnil
    have := List.dropWhile_eq_nil_iff.mp hnil '/' hmem
    simp at this
  have hle : (p.data.reverse.dropWhile fun c => !(c = '/')).length ≤ p.data.length := by
    have := (List.dropWhile_sublist (l := p.data.reverse) fun c => !(c = '/')).length_le
    simpa using this
  have hpos : 1 ≤ (p.data.reverse.dropWhile fun c => !(c = '/')).length :=
    Nat.one_le_iff_ne_zero.mpr (fun h0 => hne (List.length_eq_zero.mp h0))
  have hplen : 1 ≤ p.data.length := by
    have : p.data ≠ [] := by
      intro h0
      rw [h0] at hmem
      simp at hmem
    exact Nat.one_le_iff_ne_zero.mpr (fun h0 => this (List.length_eq_zero.mp h0))
  have hplen2 : p.length = p.data.length := rfl
  show (String.mk _).length < p.length
  rw [String.length_mk, List.length_reverse, List.length_tail, hplen2]
  omega

theorem ascend_visible (isHid : String → Bool)
    (hroot : ∀ p, hasSlash p = false → isHid p = false) :
    ∀ (fuel : Nat) (p : String), p.length ≤ fuel → isHid (ascend isHid fuel p) = false := by
  intro fuel
  induction fuel with
  | zero =>
    intro p hlen
    have hdata : p.data = [] := List.length_eq_zero.mp (Nat.le_zero.mp hlen)
    have hs : hasSlash p = false := by
      unfold hasSlash
      rw [hdata]
      rfl
    rw [ascend]
    exact hroot p hs
  | succ f ih =>
    intro p hlen
    rw [ascend]
    cases hp : isHid p with
    | false => simp [hp]
    | true =>
      cases hs : hasSlash p with
      | false => exact absurd (hroot p hs) (by simp [hp])
      | true =>
        have hlt := parentPath_length_lt p hs
        simp only [hp, hs, Bool.not_true, Bool.false_eq_true, if_false, if_neg]
        exact ih (parentPath p) (by omega)

theorem mem_dedupConnections {c : MapConnection} :
    ∀ {l : List MapConnection}
      {seen : List (String × Option String × String × Option String)},
      c ∈ dedupConnections l seen → c ∈ l := by
  intro l
  induction l with
  | nil => intro seen h; cases h
  | cons a l ih =>
    intro seen h
    rw [dedupConnections] at h
    by_cases ha : connKey a ∈ seen
    · rw [if_pos ha] at h
      exact List.mem_cons_of_mem _ (ih h)
    · rw [if_neg ha] at h
      rcases List.mem_cons.mp h with rfl | h
      · exact List.mem_cons_self _ _
      · exact List.mem_cons_of_mem _ (ih h)

/-- C8: every connection output by the (spec-modelled) Connection Bridger has
both endpoint ids visible — provided the hidden predicate treats parentless
(root-like) paths as visible, which the specification guarantees by
construction — and no output connection is a self-loop. -/
theorem c8_bridging_sound (isHid : String → Bool) (conns : List MapConnection)
    (c : MapConnection) (hroot : ∀ p, hasSlash p = false → isHid p = false)
    (hc : c ∈ bridgeConnections isHid conns) :
    isHid c.source.id = false ∧ isHid c.target.id = false ∧
      ¬ c.source.id = c.target.id := by
  unfold bridgeConnections at hc
  have h1 := mem_dedupConnections hc
  rcases List.mem_filter.mp h1 with ⟨h2, hpred⟩
  rcases List.mem_map.mp h2 with ⟨c0, _, rfl⟩
  refine ⟨?_, ?_, ?_⟩
  · exact ascend_visible isHid hroot _ _ le_rfl
  · exact ascend_visible isHid hroot _ _ le_rfl
  · simpa using hpred

/-- A concrete hidden predicate hiding exactly one slashed path. -/
def isHidOne : String → Bool := fun p => decide (p = "root/Default/h")

/-- A concrete connection sourced at the hidden path. -/
def connsHidden : List MapConnection :=
  [{ source := { id := "root/Default/h", nodeFqn := none, operation := none }
     target := { id := "root/Default/t", nodeFqn := none, operation := some "get" } }]

theorem isHidOne_root (p : String) (hp : hasSlash p = false) : isHidOne p = false := by
  rcases eq_or_ne p "root/Default/h" with rfl | hne
  · exact absurd hp (by decide)
  · exact decide_eq_false hne

/-- Witness for C8: the bridged form of the concrete connection, whose source
ascended from the hidden path to its visible parent. -/
theorem c8_bridging_sound_witness :
    isHidOne "root/Default" = false ∧ isHidOne "root/Default/t" = false ∧
      ¬ ("root/Default" : String) = "root/Default/t" :=
  c8_bridging_sound isHidOne connsHidden
    { source := { id := "root/Default", nodeFqn := none, operation := none }
      target := { id := "root/Default/t", nodeFqn := none, operation := some "get" } }
    isHidOne_root (by decide)

/-! ### Final edge identity (claim C3) -/

/-- C3 (amended): every final edge has id "<sourcePort>##<targetPort>" with
singleton source and target port lists, but the final edge list is NOT
deduplicated by edge id: it has exactly one entry per bridged connection, so
two bridged connections whose endpoints collapse to the same port strings
produce two (identical) entries with the same id. -/
theorem c3_edge_ids (hm : List (String × Bool)) (conns : List MapConnection)
    (e : ElkEdge) (he : e ∈ edges hm conns) :
    (∃ s t, e.sources = [s] ∧ e.targets = [t] ∧ e.id = s ++ "##" ++ t) ∧
      (edges hm conns).length = conns.length := by
  constructor
  · unfold edges at he
    rcases List.mem_map.mp he with ⟨c, _, rfl⟩
    exact ⟨_, _, rfl, rfl, rfl⟩
  · unfold edges
    exact List.length_map _ _

/-- A function-kind node F next to a plain node X. -/
def treeF : CTNode :=
  .node "root" none none
    [("Default", .node "root/Default" none none
      [("X", .node "root/Default/X" none none []),
       ("F", .node "root/Default/F" (some "@winglang/sdk.cloud.Function") none [])])]

/-- Two distinct raw connections from X to F with different target
operations, both collapsing onto the single invoke port of F. -/
def rawsF : List RawConnectionData :=
  [{ source := "root/Default/X", target := "root/Default/F",
     sourceOp := none, targetOp := some "invoke", name := "c1" },
   { source := "root/Default/X", target := "root/Default/F",
     sourceOp := none, targetOp := some "foo", name := "c2" }]

/-- C3 counterexample: the final edge list of the pipeline on `treeF` and
`rawsF` contains two entries with the same edge id, refuting the claimed
second dedup layer. -/
theorem c3_edge_ids_cx : ¬ (((edgesOf treeF rawsF).map ElkEdge.id).Nodup) := by
  decide

/-- Witness for C3 at a concrete edge of the pipeline output. -/
theorem c3_edge_ids_witness :
    (∃ s t,
        (ElkEdge.mk "root/Default/X#source##root/Default/F#invoke#target"
          ["root/Default/X#source"] ["root/Default/F#invoke#target"]).sources = [s] ∧
        (ElkEdge.mk "root/Default/X#source##root/Default/F#invoke#target"
          ["root/Default/X#source"] ["root/Default/F#invoke#target"]).targets = [t] ∧
        (ElkEdge.mk "root/Default/X#source##root/Default/F#invoke#target"
          ["root/Default/X#source"] ["root/Default/F#invoke#target"]).id = s ++ "##" ++ t) ∧
      (edges (hiddenMapEntries treeF) (connectionsOf treeF rawsF)).length =
        (connectionsOf treeF rawsF).length :=
  c3_edge_ids (hiddenMapEntries treeF) (connectionsOf treeF rawsF)
    (ElkEdge.mk "root/Default/X#source##root/Default/F#invoke#target"
      ["root/Default/X#source"] ["root/Default/F#invoke#target"]) (by decide)

/-! ### Node descriptors (claim C5) -/

theorem mem_nodeInfoChildren {conns : List MapConnection} {x : String × NodeV2} :
    ∀ {cs : List (String × CTNode)} {c : CTNode}, c ∈ cs.map Prod.snd →
      x ∈ nodeInfoEntries conns c → x ∈ nodeInfoChildren conns cs := by
  intro cs
  induction cs with
  | nil => intro c hc _; simp at hc
  | cons p cs ih =>
    intro c hc hx
    rcases p with ⟨nm, cn⟩
    rw [nodeInfoChildren]
    simp only [List.map_cons, List.mem_cons] at hc
    rcases hc with rfl | hc
    · exact List.mem_append_left _ hx
    · exact List.mem_append_right _ (ih hc hx)

theorem nodeInfo_mem_of_reach {conns : List MapConnection} {n m : CTNode}
    (h : InReach n m) : (m.path, nodeDescriptor conns m) ∈ nodeInfoEntries conns n := by
  induction h with
  | refl n =>
    cases n with
    | node p f hd cs =>
      rw [nodeInfoEntries]
      exact List.mem_cons_self _ _
  | @step n c m hc h ih =>
    cases n with
    | node p f hd cs =>
      rw [nodeInfoEntries]
      refine List.mem_cons_of_mem _ (mem_nodeInfoChildren ?_ ih)
      simpa [CTNode.childNodes, CTNode.childPairs] using hc

/-- The relation between a classified role and a stored descriptor, as the
amended claim states it: container roles store the ordered child paths,
autoId and function roles store payload-free descriptors of the same tag, and
the scheduler, endpoint and construct roles all store a construct descriptor
carrying the node's inflight records. -/
def descrMatches (n : CTNode) (conns : List MapConnection) :
    NodeTypeTag → NodeV2 → Prop
  | .container, .container ch => ch = n.childNodes.map CTNode.path
  | .autoId, .autoId => True
  | .function, .function => True
  | .scheduler, .construct infl => infl = getNodeInflights n conns
  | .endpoint, .construct infl => infl = getNodeInflights n conns
  | .construct, .construct infl => infl = getNodeInflights n conns
  | _, _ => False

/-- C5 (amended): for every node, the stored descriptor corresponds to the
node's classified role as follows: container carries the ordered child paths,
autoId and function carry no payload, and the roles scheduler, endpoint and
construct are all stored as a construct descriptor carrying the node's
inflight records (the scheduler and endpoint roles do NOT get descriptors of
their own tag). -/
theorem c5_descriptors (t : CTNode) (raw : List RawConnectionData) (n : CTNode)
    (hN : ((nodeInfoOf t raw).map Prod.fst).Nodup) (hr : InReach t n) :
    ∃ d, (nodeInfoOf t raw).lookup n.path = some d ∧
      descrMatches n (connectionsOf t raw)
        (getNodeType n ((connectionsOf t raw).any fun c =>
          c.source.id = n.path || c.target.id = n.path)) d := by
  refine ⟨nodeDescriptor (connectionsOf t raw) n,
    lookup_eq_of_nodup_mem _ _ _ hN (nodeInfo_mem_of_reach hr), ?_⟩
  unfold nodeDescriptor
  cases hty : getNodeType n ((connectionsOf t raw).any fun c =>
      c.source.id = n.path || c.target.id = n.path) with
  | container => exact rfl
  | autoId => trivial
  | function => trivial
  | scheduler => exact rfl
  | endpoint => exact rfl
  | construct => exact rfl

/-- A schedule-kind node. -/
def nodeS : CTNode := .node "root/Default/S" (some "@winglang/sdk.cloud.Schedule") none []

/-- The Default wrapper around the schedule node. -/
def defaultS : CTNode := .node "root/Default" none none [("S", nodeS)]

/-- A tree whose only interesting node is the schedule-kind node S. -/
def treeS : CTNode := .node "root" none none [("Default", defaultS)]

/-- C5 counterexample: node S is classified scheduler, but the descriptor
map stores a construct descriptor for it, whose tag is not scheduler. -/
theorem c5_descriptors_cx :
    (nodeInfoOf treeS []).lookup "root/Default/S" = some (NodeV2.construct []) ∧
      getNodeType nodeS ((connectionsOf treeS []).any fun c =>
        c.source.id = "root/Default/S" || c.target.id = "root/Default/S") =
        NodeTypeTag.scheduler ∧
      ¬ (NodeV2.tag (NodeV2.construct []) = NodeTypeTag.scheduler) := by
  decide

/-- Witness for C5 at the schedule node of the concrete tree. -/
theorem c5_descriptors_witness :
    ∃ d, (nodeInfoOf treeS []).lookup (CTNode.path nodeS) = some d ∧
      descrMatches nodeS (connectionsOf treeS [])
        (getNodeType nodeS ((connectionsOf treeS []).any fun c =>
          c.source.id = CTNode.path nodeS || c.target.id = CTNode.path nodeS)) d :=
  c5_descriptors treeS [] nodeS (by decide)
    (.step (List.Mem.head _) (.step (List.Mem.head _) (.refl nodeS)))

/-! ### Visibility propagation (claim C6) -/

theorem mem_collectHiddenChildren {x : String × Bool} :
    ∀ {cs : List (String × CTNode)} {c : CTNode} {force : Bool}, c ∈ cs.map Prod.snd →
      x ∈ collectHidden force c → x ∈ collectHiddenChildren force cs := by
  intro cs
  induction cs with
  | nil => intro c force hc _; simp at hc
  | cons p cs ih =>
    intro c force hc hx
    rcases p with ⟨nm, cn⟩
    rw [collectHiddenChildren]
    simp only [List.map_cons, List.mem_cons] at hc
    rcases hc with rfl | hc
    · exact List.mem_append_left _ hx
    · exact List.mem_append_right _ (ih hc hx)

theorem collectHidden_entry {n m : CTNode} (h : InReach n m) :
    ∀ (force : Bool), ∃ b, (m.path, b) ∈ collectHidden force n ∧
      ∀ c ∈ m.childNodes, (c.path, b || c.declaredHidden) ∈ collectHidden force n := by
  induction h with
  | refl n =>
    intro force
    cases n with
    | node p f hd cs =>
      refine ⟨force || hd.getD false, ?_, ?_⟩
      · rw [collectHidden]
        exact List.mem_cons_self _ _
      · intro c hc
        have hcm : c ∈ cs.map Prod.snd := by
          simpa [CTNode.childNodes, CTNode.childPairs] using hc
        have hhead : (c.path, (force || hd.getD false) || c.declaredHidden) ∈
            collectHidden (force || hd.getD false) c := by
          cases c with
          | node cp cf chd ccs =>
            rw [collectHidden]
            exact List.mem_cons_self _ _
        rw [collectHidden]
        exact List.mem_cons_of_mem _ (mem_collectHiddenChildren hcm hhead)
  | @step n c m hc h ih =>
    intro force
    cases n with
    | node p f hd cs =>
      obtain ⟨b, hb1, hb2⟩ := ih (force || hd.getD false)
      have hcmem : c ∈ cs.map Prod.snd := by
        simpa [CTNode.childNodes, CTNode.childPairs] using hc
      refine ⟨b, ?_, ?_⟩
      · rw [collectHidden]
        exact List.mem_cons_of_mem _ (mem_collectHiddenChildren hcmem hb1)
      · intro c2 hc2
        rw [collectHidden]
        exact List.mem_cons_of_mem _ (mem_collectHiddenChildren hcmem (hb2 c2 hc2))

theorem hiddenMap_root_entry {t r : CTNode} (hroot : r ∈ pseudoRootChildren t) :
    (r.path, r.declaredHidden) ∈ hiddenMapEntries t := by
  unfold hiddenMapEntries
  refine List.mem_flatMap.mpr ⟨r, hroot, ?_⟩
  cases r with
  | node p f hd cs =>
    rw [collectHidden]
    have : (false || hd.getD false) = hd.getD false := Bool.false_or _
    rw [← this]
    exact List.mem_cons_self _ _

/-- C6: within the visibility map, the recorded effective hidden flag of
every child equals its declared flag OR-ed with its parent's recorded flag;
the traversal roots (the children of the pseudo root) record exactly their
declared flag (no forced hiding); and visibility is monotone down the tree: a
child of an effectively hidden node is recorded hidden regardless of its own
declared flag. -/
theorem c6_hidden_propagation (t m c r : CTNode)
    (hN : ((hiddenMapEntries t).map Prod.fst).Nodup)
    (hroot : r ∈ pseudoRootChildren t) (hr : InReach r m) (hc : c ∈ m.childNodes) :
    (∀ r2 ∈ pseudoRootChildren t,
      (hiddenMapEntries t).lookup r2.path = some r2.declaredHidden) ∧
    ∃ bm, (hiddenMapEntries t).lookup m.path = some bm ∧
      (hiddenMapEntries t).lookup c.path = some (c.declaredHidden || bm) ∧
      (bm = true → (hiddenMapEntries t).lookup c.path = some true) := by
  constructor
  · intro r2 hr2
    exact lookup_eq_of_nodup_mem _ _ _ hN (hiddenMap_root_entry hr2)
  · obtain ⟨bm, hb1, hb2⟩ := collectHidden_entry hr false
    have hm1 : (m.path, bm) ∈ hiddenMapEntries t :=
      List.mem_flatMap.mpr ⟨r, hroot, hb1⟩
    have hm2 : (c.path, bm || c.declaredHidden) ∈ hiddenMapEntries t :=
      List.mem_flatMap.mpr ⟨r, hroot, hb2 c hc⟩
    refine ⟨bm, lookup_eq_of_nodup_mem _ _ _ hN hm1, ?_, ?_⟩
    · rw [Bool.or_comm]
      exact lookup_eq_of_nodup_mem _ _ _ hN hm2
    · intro hbm
      have := lookup_eq_of_nodup_mem _ _ _ hN hm2
      rw [hbm, Bool.true_or] at this
      exact this

/-- A declared-visible child under a declared-hidden parent. -/
def nodeHC : CTNode := .node "root/Default/H/C" none (some false) []

/-- A declared-hidden node with a declared-visible child. -/
def nodeH : CTNode := .node "root/Default/H" none (some true) [("C", nodeHC)]

/-- A tree whose pseudo-root child H is hidden. -/
def treeH : CTNode :=
  .node "root" none none [("Default", .node "root/Default" none none [("H", nodeH)])]

/-- Witness for C6: the hidden flag of H forces its declared-visible child C
to be recorded hidden. -/
theorem c6_hidden_propagation_witness :
    (∀ r2 ∈ pseudoRootChildren treeH,
      (hiddenMapEntries treeH).lookup r2.path = some r2.declaredHidden) ∧
    ∃ bm, (hiddenMapEntries treeH).lookup (CTNode.path nodeH) = some bm ∧
      (hiddenMapEntries treeH).lookup (CTNode.path nodeHC) =
        some (CTNode.declaredHidden nodeHC || bm) ∧
      (bm = true →
        (hiddenMapEntries treeH).lookup (CTNode.path nodeHC) = some true) :=
  c6_hidden_propagation treeH nodeH nodeHC nodeH (by decide) (List.Mem.head _)
    (.refl nodeH) (List.Mem.head _)

end WingMap
